import Mathlib

/- Formal model of the multi-client attribution engine of this repository:
   the functions detect_client_for_work and update_timesheet_with_multi_client
   in claude-instructions/update-june-with-clients.py, together with the
   configuration shape produced by claude-instructions/client-config-manager.py.

   Modelling conventions:
   - Python dicts with string keys become association lists (unique keys by
     construction: entries are only appended when the key is absent).
   - Python str.lower is modelled with Char.toLower (ASCII; the engine's
     patterns and fixtures are ASCII).
   - Python round(x, 1) on minutes/60 is modelled exactly: hour values are
     represented as integer tenths of an hour, and round half-to-even is
     applied to the exact rational minutes*10/60.  Float representation
     noise of CPython is idealised away; all quantities stay exact.
   - A Python KeyError (looking up a client id that is not configured)
     is modelled by Option: none is the raised error. -/

namespace MultiClient

/-- Detection pattern lists of one client, the "detection" sub-dict of a
client entry in multi-client-config.json.  gitlabPrefixes is present in the
configuration file but never read by the engine. -/
structure Detection where
  projects : List String
  folders : List String
  ticketPrefixes : List String
  gitlabPrefixes : List String
  tags : List String
deriving DecidableEq

/-- One client entry of the configuration. -/
structure Client where
  displayName : String
  isDefault : Bool
  detection : Detection
deriving DecidableEq

/-- The CLIENT_CONFIG value: clients dict (as an association list preserving
insertion order), the detectionPriority list, and settings.defaultClient. -/
structure Config where
  clients : List (String × Client)
  detectionPriority : List String
  defaultClient : String
deriving DecidableEq

/-- One timeline phase of a DailyRecord.  projectName, description and
ticketReference model phase.get(key, "") — the empty string stands for an
absent field, exactly as the Python code reads them. -/
structure Phase where
  title : String
  category : String
  projectName : String
  description : String
  ticketReference : String
  tags : List String
  durationMinutes : Int
  clientId : Option String
deriving DecidableEq

/-- Lowercase a string, character by character (Python str.lower on ASCII). -/
def lowerChars (s : String) : List Char := s.data.map Char.toLower

/-- Python substring test p in h, on char lists: does p occur contiguously
inside h?  (The empty pattern occurs in every string, as in Python.) -/
def charsContain (p : List Char) : List Char → Bool
  | [] => p.isEmpty
  | c :: cs => List.isPrefixOf p (c :: cs) || charsContain p cs

/-- Case-insensitive substring test: pattern.lower() in haystack.lower(). -/
def pyInCI (pat hay : String) : Bool := charsContain (lowerChars pat) (lowerChars hay)

/-- Python s.startswith(pat), case-sensitive. -/
def startsWithStr (s pat : String) : Bool := List.isPrefixOf pat.data s.data

/-- Dict lookup CLIENT_CONFIG["clients"][cid]; none models the KeyError. -/
def lookupClient (cfg : Config) (cid : String) : Option Client :=
  (cfg.clients.find? (fun e => e.1 == cid)).map (fun e => e.2)

/-- The body of one iteration of detect_client_for_work's loop: does this
client's detection dict match?  The four phase-level fields are tested in
the source order — projects, folders, ticketPrefixes, tags — followed by
the gitlab projectsWorkedOn check; Boolean or short-circuits exactly like
the source's sequence of early returns. -/
def ruleMatches (det : Detection) (projectName : String) (phaseData : Option Phase)
    (gitlabProjects : Option (List String)) : Bool :=
  det.projects.any (fun pat => pyInCI pat projectName) ||
  (match phaseData with
   | some ph =>
       det.folders.any (fun f => pyInCI f ph.description) ||
       det.ticketPrefixes.any (fun pre => startsWithStr ph.ticketReference pre) ||
       ph.tags.any (fun t => det.tags.contains t)
   | none => false) ||
  (match gitlabProjects with
   | some projs => projs.any (fun pr => (det.projects.map lowerChars).contains (lowerChars pr))
   | none => false)

/-- The loop of detect_client_for_work over the remaining detectionPriority
list: skip the literal id "personal", raise (none) if a listed client id is
not configured, return the first client whose rule matches, and fall back to
settings.defaultClient when the list is exhausted. -/
def detectGo (cfg : Config) (projectName : String) (phaseData : Option Phase)
    (gitlabProjects : Option (List String)) : List String → Option String
  | [] => some cfg.defaultClient
  | cid :: rest =>
      if cid == "personal" then detectGo cfg projectName phaseData gitlabProjects rest
      else
        match lookupClient cfg cid with
        | none => none
        | some client =>
            if ruleMatches client.detection projectName phaseData gitlabProjects then some cid
            else detectGo cfg projectName phaseData gitlabProjects rest

/-- detect_client_for_work(project_name, phase_data, gitlab_data) from
update-june-with-clients.py. -/
def detect_client_for_work (cfg : Config) (projectName : String) (phaseData : Option Phase)
    (gitlabProjects : Option (List String)) : Option String :=
  detectGo cfg projectName phaseData gitlabProjects cfg.detectionPriority

/-- Accumulators of the phase loop of update_timesheet_with_multi_client:
the rewritten phases so far and the client_minutes / client_projects /
client_tickets dicts. -/
structure AggState where
  phases : List Phase
  minutes : List (String × Int)
  projects : List (String × List String)
  tickets : List (String × List String)
deriving DecidableEq

/-- Aggregation state before the first phase. -/
def emptyAgg : AggState := ⟨[], [], [], []⟩

/-- Python: client_id in client_minutes. -/
def hasKey (m : List (String × Int)) (k : String) : Bool := m.any (fun e => e.1 == k)

/-- Python: client_minutes[k] += d, updating the (unique) entry with key k. -/
def bumpFirst : List (String × Int) → String → Int → List (String × Int)
  | [], _, _ => []
  | e :: rest, k, d => if e.1 == k then (e.1, e.2 + d) :: rest else e :: bumpFirst rest k d

/-- Python set.add modelled on an insertion-ordered duplicate-free list. -/
def setInsert (l : List String) (x : String) : List String :=
  if l.contains x then l else l ++ [x]

/-- Python: client_projects[k].add(x) (and likewise client_tickets). -/
def addToSetMap : List (String × List String) → String → String → List (String × List String)
  | [], _, _ => []
  | e :: rest, k, x => if e.1 == k then (e.1, setInsert e.2 x) :: rest else e :: addToSetMap rest k x

/-- The "if client_id not in client_minutes" initialisation block: create
the zero / empty-set entries for a client seen for the first time. -/
def initClient (st : AggState) (cid : String) : AggState :=
  if hasKey st.minutes cid then st
  else { st with
    minutes := st.minutes ++ [(cid, 0)],
    projects := st.projects ++ [(cid, [])],
    tickets := st.tickets ++ [(cid, [])] }

/-- The eligibility test of the loop: phase["category"] in ["client_work", "meeting"]. -/
def eligible (p : Phase) : Bool := p.category == "client_work" || p.category == "meeting"

/-- The category rewrite at the end of the loop body: "side_project" when the
assigned client is the literal "personal", otherwise "client_work". -/
def rewriteCategory (cid : String) : String :=
  if cid == "personal" then "side_project" else "client_work"

/-- One iteration of the phase loop of update_timesheet_with_multi_client:
skip ineligible phases unmodified; otherwise classify, initialise the
client's accumulator entries if needed, add durationMinutes, record
projectName and ticketReference when nonempty, and append the phase with
clientId set and category rewritten. -/
def processPhase (cfg : Config) (gl : Option (List String)) (st : AggState) (p : Phase) :
    Option AggState :=
  if eligible p then
    match detect_client_for_work cfg p.projectName (some p) gl with
    | none => none
    | some cid =>
        let st0 := initClient st cid
        let st1 := { st0 with minutes := bumpFirst st0.minutes cid p.durationMinutes }
        let st2 := if p.projectName == "" then st1
                   else { st1 with projects := addToSetMap st1.projects cid p.projectName }
        let st3 := if p.ticketReference == "" then st2
                   else { st2 with tickets := addToSetMap st2.tickets cid p.ticketReference }
        some { st3 with phases := st3.phases ++
                 [{ p with clientId := some cid, category := rewriteCategory cid }] }
  else some { st with phases := st.phases ++ [p] }

/-- The whole phase loop, folded over timelinePhases. -/
def processPhases (cfg : Config) (gl : Option (List String)) :
    AggState → List Phase → Option AggState
  | st, [] => some st
  | st, p :: ps =>
      match processPhase cfg gl st p with
      | none => none
      | some st1 => processPhases cfg gl st1 ps

/-- Round half-to-even of the exact rational a/b (b > 0): the value CPython's
round computes when the float argument represents a/b exactly, and on every
non-tie input whatever the representation noise cannot cross. -/
def rhe (a b : ℤ) : ℤ :=
  let f := Int.fdiv a b
  let r := a - f * b
  if 2 * r < b then f else if b < 2 * r then f + 1 else if f % 2 = 0 then f else f + 1

/-- Python round(minutes / 60, 1), the result expressed in tenths of an hour. -/
def round1Tenths (minutes : ℤ) : ℤ := rhe (minutes * 10) 60

/-- Accumulators of the hours loop: client_hours, total_billable and
side_project_hours, all hour values in tenths. -/
structure HoursAcc where
  clientHours : List (String × ℤ)
  totalBillable : ℤ
  sideProjectHours : ℤ
deriving DecidableEq

/-- One iteration of "for client_id, minutes in client_minutes.items()". -/
def hoursStep (acc : HoursAcc) (e : String × Int) : HoursAcc :=
  let h := round1Tenths e.2
  if e.1 == "personal" then { acc with sideProjectHours := h }
  else { acc with
    clientHours := acc.clientHours ++ [(e.1, h)],
    totalBillable := acc.totalBillable + h }

/-- The hours loop over client_minutes. -/
def hoursPass (minutes : List (String × Int)) : HoursAcc :=
  minutes.foldl hoursStep ⟨[], 0, 0⟩

/-- The final clientId assignment: "personal" for an empty client_hours dict,
the sole key for a singleton, the sentinel "multiple" otherwise. -/
def primaryClient (clientHours : List (String × ℤ)) : String :=
  match clientHours with
  | [] => "personal"
  | [e] => e.1
  | _ => "multiple"

/-- The day-level outputs of update_timesheet_with_multi_client that the
specification describes: rewritten phases, per-client minute totals, the two
hour totals (in tenths) and the day's clientId. -/
structure DayResult where
  phases : List Phase
  clientMinutes : List (String × Int)
  billableTenths : ℤ
  sideProjectTenths : ℤ
  primaryClientId : String
deriving DecidableEq

/-- update_timesheet_with_multi_client(data), restricted to the engine
outputs in scope: phase loop, hours loop, clientId assignment. -/
def update_timesheet_with_multi_client (cfg : Config) (gl : Option (List String))
    (phases : List Phase) : Option DayResult :=
  match processPhases cfg gl emptyAgg phases with
  | none => none
  | some st =>
      let hr := hoursPass st.minutes
      some ⟨st.phases, st.minutes, hr.totalBillable, hr.sideProjectHours,
            primaryClient hr.clientHours⟩

/-- Sum of the values of a client_minutes dict. -/
def sumVals (m : List (String × Int)) : Int := (m.map (fun e => e.2)).sum

/-- Sum of durationMinutes over the eligible (classified) phases. -/
def eligibleSum (ps : List Phase) : Int :=
  ((ps.filter eligible).map (fun p => p.durationMinutes)).sum

/-- Does the non-default client cid match this phase?  This is exactly the
per-rule test detect_client_for_work performs, with no gitlab signal. -/
def clientMatches (cfg : Config) (pn : String) (ph : Phase) (cid : String) : Bool :=
  match lookupClient cfg cid with
  | some client => ruleMatches client.detection pn (some ph) none
  | none => false

/-- Round half-away-from-zero of the exact rational a/b (b > 0).  Modelled
from the spec: the rounding mode section 4.4 prescribes. -/
def rha (a b : ℤ) : ℤ :=
  let f := Int.fdiv a b
  let r := a - f * b
  if 2 * r < b then f else if b < 2 * r then f + 1 else if 0 < a then f + 1 else f

/-- Spec-side one-decimal rounding of minutes/60, in tenths of an hour,
with the spec's half-away-from-zero tie rule. -/
def specRound1 (minutes : ℤ) : ℤ := rha (minutes * 10) 60

/-- Modelled from the spec: billableHours as C3 words it — the rounding
applied to the sum of totalMinutes over all non-default clients. -/
def claimBillableTenths (dflt : String) (m : List (String × Int)) : ℤ :=
  specRound1 (sumVals (m.filter (fun e => ¬ e.1 == dflt)))

/-- Modelled from the spec: sideProjectHours as C3 words it — the default
client's totalMinutes/60 rounded half-away-from-zero. -/
def claimSideTenths (dflt : String) (m : List (String × Int)) : ℤ :=
  specRound1 ((((m.find? (fun e => e.1 == dflt)).map (fun e => e.2)).getD 0))

/-- Modelled from the spec: the category rewrite as C4 words it, comparing
the assigned client id against the configured default client id. -/
def claimRewrite (dflt cid : String) : String :=
  if cid == dflt then "side_project" else "client_work"

/-- Modelled from the spec: primaryClientId as C5 words it, keyed on the
non-default clients with nonzero attributed minutes. -/
def claimPrimary (dflt : String) (m : List (String × Int)) : String :=
  match m.filter (fun e => ¬ e.1 == dflt && ¬ e.2 == 0) with
  | [] => "personal"
  | [e] => e.1
  | _ => "multiple"

/-- The per-phase composite the idempotence claim C9 is about: the phase
mutation performed by one loop iteration (classification plus clientId
assignment plus category rewrite), without the aggregation side effects. -/
def classifyRewrite (cfg : Config) (gl : Option (List String)) (p : Phase) : Option Phase :=
  if eligible p then
    match detect_client_for_work cfg p.projectName (some p) gl with
    | none => none
    | some cid => some { p with clientId := some cid, category := rewriteCategory cid }
  else some p

/-- Python: client_minutes.get(k, 0), reading one client's accumulated total. -/
def lookupMinutes (m : List (String × Int)) (k : String) : Int :=
  ((m.find? (fun e => e.1 == k)).map (fun e => e.2)).getD 0

/-- Key list of a client_minutes dict. -/
def keysOf (m : List (String × Int)) : List String := m.map (fun e => e.1)

/- Concrete fixtures for witness and counterexample theorems. -/

/-- A detection dict with every pattern list empty. -/
def noPatterns : Detection := ⟨[], [], [], [], []⟩

/-- A non-default client detected through project-name patterns only. -/
def clientOnProjects (ps : List String) : Client := ⟨"C", false, ⟨ps, [], [], [], []⟩⟩

/-- The default "personal" client exactly as create_default_config builds it. -/
def personalClient : Client :=
  ⟨"Personal/Side Projects", true, ⟨[], [], [], [], ["personal", "side-project", "non-billable"]⟩⟩

/-- A two-client store: "a" matches project "alpha", "b" matches "beta",
with the standard "personal" default. -/
def cfgAB : Config :=
  ⟨[("a", clientOnProjects ["alpha"]), ("b", clientOnProjects ["beta"]),
    ("personal", personalClient)],
   ["a", "b", "personal"], "personal"⟩

/-- A phase with every optional field absent. -/
def basePhase : Phase := ⟨"t", "client_work", "", "", "", [], 0, none⟩

/-- A client_work phase on project "alpha" with the given duration. -/
def phaseAlpha (d : Int) : Phase :=
  { basePhase with projectName := "alpha", durationMinutes := d }

/-- A client_work phase on project "beta" with the given duration. -/
def phaseBeta (d : Int) : Phase :=
  { basePhase with projectName := "beta", durationMinutes := d }

/-- A break phase, ineligible for classification. -/
def phaseBreak : Phase := { basePhase with category := "break", durationMinutes := 20 }

/-- A meeting phase with no matchable field. -/
def phaseMeeting : Phase := { basePhase with category := "meeting", durationMinutes := 30 }

/-- A store whose configured default client id is "dflt", not "personal". -/
def cfgDefaultOther : Config := ⟨[("dflt", ⟨"D", true, noPatterns⟩)], ["dflt"], "dflt"⟩

/-- A store in which no rule at all has isDefault set. -/
def cfgZeroDefaults : Config :=
  ⟨[("a", ⟨"A", false, noPatterns⟩), ("p", ⟨"P", false, noPatterns⟩)], ["a", "p"], "p"⟩

/-- A store in which two rules have isDefault set. -/
def cfgTwoDefaults : Config :=
  ⟨[("a", ⟨"A", true, noPatterns⟩), ("p", ⟨"P", true, noPatterns⟩)], ["a", "p"], "p"⟩

/-- The alpha phase after classification against cfgAB. -/
def qAlpha : Phase := { basePhase with projectName := "alpha", durationMinutes := 50, clientId := some "a" }

/-- The beta phase after classification against cfgAB. -/
def qBeta : Phase := { basePhase with projectName := "beta", durationMinutes := 50, clientId := some "b" }

/-- Aggregation state after processing phaseAlpha 50 from the empty state. -/
def stAlpha : AggState := ⟨[qAlpha], [("a", 50)], [("a", ["alpha"])], [("a", [])]⟩

/-- Engine output for the day [phaseAlpha 50, phaseBeta 50] under cfgAB. -/
def resAB : DayResult := ⟨[qAlpha, qBeta], [("a", 50), ("b", 50)], 16, 0, "multiple"⟩

/-- The negative-duration alpha phase after classification. -/
def qAlphaNeg : Phase :=
  { basePhase with projectName := "alpha", durationMinutes := -30, clientId := some "a" }

/-- Aggregation state after processing phaseAlpha (-30) from the empty state. -/
def stAlphaNeg : AggState := ⟨[qAlphaNeg], [("a", -30)], [("a", ["alpha"])], [("a", [])]⟩


/-- The alpha phase of zero duration after classification against cfgAB. -/
def qAlphaZero : Phase := { basePhase with projectName := "alpha", clientId := some "a" }

/-- Engine output for the single zero-duration phase day under cfgAB. -/
def resZero : DayResult := ⟨[qAlphaZero], [("a", 0)], 0, 0, "a"⟩

/- Theorems. -/

/-- C6: the claim says a Rule Store with zero or multiple default rules is
rejected before any classification runs.  The code performs no such
validation: detect_client_for_work never reads isDefault, and classification
runs to completion on a store with zero default rules and on a store with
two default rules, falling back to settings.defaultClient. -/
theorem no_default_rule_validation :
    ((cfgZeroDefaults.clients.filter (fun e => e.2.isDefault)).length = 0) ∧
    detect_client_for_work cfgZeroDefaults "anything" none none = some "p" ∧
    ((cfgTwoDefaults.clients.filter (fun e => e.2.isDefault)).length = 2) ∧
    detect_client_for_work cfgTwoDefaults "anything" none none = some "p" ∧
    update_timesheet_with_multi_client cfgZeroDefaults none [phaseMeeting] =
      some ⟨[{ phaseMeeting with clientId := some "p", category := "client_work" }],
            [("p", 30)], 5, 0, "p"⟩ := by
  decide

/-- C7: a phase whose category is neither client_work nor meeting is passed
through unmodified: it is appended as-is and no accumulator (minutes,
projects, tickets) changes, so classification is never consulted for it. -/
theorem ineligible_phase_passthrough (cfg : Config) (gl : Option (List String))
    (st : AggState) (p : Phase) (h : eligible p = false) :
    processPhase cfg gl st p = some { st with phases := st.phases ++ [p] } := by
  simp [processPhase, h]

/-- Witness for C7 at a concrete break phase. -/
theorem ineligible_phase_passthrough_witness :
    processPhase cfgAB none emptyAgg phaseBreak =
      some { emptyAgg with phases := emptyAgg.phases ++ [phaseBreak] } :=
  ineligible_phase_passthrough cfgAB none emptyAgg phaseBreak (by decide)

/-- C3 counterexample: the claim rounds the summed non-default minutes once,
half away from zero; the code rounds each client's hours separately before
summing (two clients of 50 minutes: code 1.6h, claim 1.7h) and rounds ties
to even (a single client of 15 minutes: code 0.2h, claim 0.3h). -/
theorem billable_rounding_counterexample :
    ((update_timesheet_with_multi_client cfgAB none [phaseAlpha 50, phaseBeta 50]).map
        DayResult.billableTenths = some 16) ∧
    ((update_timesheet_with_multi_client cfgAB none [phaseAlpha 50, phaseBeta 50]).map
        (fun r => claimBillableTenths "personal" r.clientMinutes) = some 17) ∧
    ((update_timesheet_with_multi_client cfgAB none [phaseAlpha 15]).map
        DayResult.billableTenths = some 2) ∧
    ((update_timesheet_with_multi_client cfgAB none [phaseAlpha 15]).map
        (fun r => claimBillableTenths "personal" r.clientMinutes) = some 3) ∧
    (16 : ℤ) ≠ 17 ∧ (2 : ℤ) ≠ 3 := by
  decide

/-- C4 counterexample: with configured default client id "dflt", a meeting
phase that matches nothing is assigned the default client, yet its category
is rewritten to client_work, not side_project as the claim requires for the
default client under any configured default id. -/
theorem category_rewrite_counterexample :
    ((update_timesheet_with_multi_client cfgDefaultOther none [phaseMeeting]).map
        (fun r => r.phases.map (fun q => q.clientId)) = some [some "dflt"]) ∧
    ((update_timesheet_with_multi_client cfgDefaultOther none [phaseMeeting]).map
        (fun r => r.phases.map (fun q => q.category)) = some ["client_work"]) ∧
    claimRewrite cfgDefaultOther.defaultClient "dflt" = "side_project" ∧
    ("client_work" : String) ≠ "side_project" := by
  decide

/-- C5 counterexample: a single zero-duration phase attributed to client "a"
gives client "a" an entry with zero minutes; the code sets the day's
clientId to "a", while the claim (keyed on nonzero minutes) demands
"personal". -/
theorem primary_client_counterexample :
    ((update_timesheet_with_multi_client cfgAB none [phaseAlpha 0]).map
        DayResult.primaryClientId = some "a") ∧
    ((update_timesheet_with_multi_client cfgAB none [phaseAlpha 0]).map
        (fun r => claimPrimary "personal" r.clientMinutes) = some "personal") ∧
    ("a" : String) ≠ "personal" := by
  decide

/-- C8 counterexample: a classified phase of -30 minutes contributes -30 to
its client's total; the claim says non-positive durations contribute zero. -/
theorem negative_duration_counterexample :
    ((update_timesheet_with_multi_client cfgAB none [phaseAlpha (-30)]).map
        DayResult.clientMinutes = some [("a", -30)]) ∧
    ((-30 : Int) ≠ 0) := by
  decide

/-- The detection loop over any remaining priority list, without the gitlab
signal, returns the first non-"personal" id whose rule matches and falls back
to the configured default. -/
theorem detectGo_eq_find (cfg : Config) (pn : String) (ph : Phase) (l : List String)
    (h : ∀ cid ∈ l, cid ≠ "personal" → (lookupClient cfg cid).isSome) :
    detectGo cfg pn (some ph) none l =
      some (((l.filter (fun c => !(c == "personal"))).find?
              (fun cid => clientMatches cfg pn ph cid)).getD cfg.defaultClient) := by
  induction l with
  | nil => rfl
  | cons cid rest ih =>
    have hrest : ∀ c ∈ rest, c ≠ "personal" → (lookupClient cfg c).isSome :=
      fun c hc => h c (List.mem_cons_of_mem _ hc)
    by_cases hp : cid = "personal"
    · subst hp
      simpa [detectGo, List.filter_cons] using ih hrest
    · have hb : (cid == "personal") = false := beq_eq_false_iff_ne.mpr hp
      obtain ⟨client, hcl⟩ := Option.isSome_iff_exists.mp (h cid (List.mem_cons_self _ _) hp)
      cases hm : ruleMatches client.detection pn (some ph) none with
      | true =>
          simp [detectGo, hb, hcl, hm, List.filter_cons, clientMatches,
            List.find?_cons_of_pos]
      | false =>
          simp [detectGo, hb, hcl, hm, List.filter_cons, clientMatches,
            List.find?_cons_of_neg, ih hrest]

/-- C1: for an eligible phase and a well-formed store (default client
"personal", exactly the "personal" rule marked default, every non-default
id in the priority list configured), classification without the secondary
gitlab signal returns the first non-default rule in priority order whose
detection fields match the phase, and the default client id when none
matches.  The per-rule test clientMatches checks the four detection fields
in the fixed source order with short-circuit. -/
theorem classify_first_match_priority (cfg : Config) (pn : String) (ph : Phase)
    (_helig : eligible ph = true)
    (_hdflt : cfg.defaultClient = "personal")
    (_hone : ∀ e ∈ cfg.clients, e.2.isDefault = (e.1 == "personal"))
    (hdefined : ∀ cid ∈ cfg.detectionPriority, cid ≠ "personal" → (lookupClient cfg cid).isSome) :
    detect_client_for_work cfg pn (some ph) none =
      some (((cfg.detectionPriority.filter (fun c => !(c == "personal"))).find?
              (fun cid => clientMatches cfg pn ph cid)).getD cfg.defaultClient) :=
  detectGo_eq_find cfg pn ph cfg.detectionPriority hdefined

/-- Witness for C1 at a concrete store and phase. -/
theorem classify_first_match_priority_witness :
    detect_client_for_work cfgAB "alpha" (some (phaseAlpha 50)) none =
      some (((cfgAB.detectionPriority.filter (fun c => !(c == "personal"))).find?
              (fun cid => clientMatches cfgAB "alpha" (phaseAlpha 50) cid)).getD
            cfgAB.defaultClient) :=
  classify_first_match_priority cfgAB "alpha" (phaseAlpha 50) (by decide) (by decide)
    (by decide) (by decide)

/-- The detection loop is total and its fallback-or-match result stays inside
the remaining list or the configured default. -/
theorem detectGo_total (cfg : Config) (pn : String) (ph : Option Phase)
    (gl : Option (List String)) (l : List String)
    (h : ∀ cid ∈ l, cid ≠ "personal" → (lookupClient cfg cid).isSome) :
    (detectGo cfg pn ph gl l).isSome = true ∧
    ((detectGo cfg pn ph gl l).getD cfg.defaultClient ∈ l ∨
     (detectGo cfg pn ph gl l).getD cfg.defaultClient = cfg.defaultClient) := by
  induction l with
  | nil => exact ⟨rfl, Or.inr rfl⟩
  | cons cid rest ih =>
    have hrest : ∀ c ∈ rest, c ≠ "personal" → (lookupClient cfg c).isSome :=
      fun c hc => h c (List.mem_cons_of_mem _ hc)
    by_cases hp : cid = "personal"
    · subst hp
      have hrec : detectGo cfg pn ph gl ("personal" :: rest) = detectGo cfg pn ph gl rest := by
        simp [detectGo]
      obtain ⟨h1, h2⟩ := ih hrest
      rw [hrec]
      exact ⟨h1, h2.imp (List.mem_cons_of_mem _) id⟩
    · have hb : (cid == "personal") = false := beq_eq_false_iff_ne.mpr hp
      obtain ⟨client, hcl⟩ := Option.isSome_iff_exists.mp (h cid (List.mem_cons_self _ _) hp)
      cases hm : ruleMatches client.detection pn ph gl with
      | true =>
          have hrec : detectGo cfg pn ph gl (cid :: rest) = some cid := by
            simp [detectGo, hb, hcl, hm]
          rw [hrec]
          exact ⟨rfl, Or.inl (List.mem_cons_self _ _)⟩
      | false =>
          have hrec : detectGo cfg pn ph gl (cid :: rest) = detectGo cfg pn ph gl rest := by
            simp [detectGo, hb, hcl, hm]
          obtain ⟨h1, h2⟩ := ih hrest
          rw [hrec]
          exact ⟨h1, h2.imp (List.mem_cons_of_mem _) id⟩

/-- C10: whenever every non-"personal" id in the priority order is a
configured client, classification terminates without error on any phase and
any optional day-level project list, and its result is an id of the priority
order or the configured default client id — never anything else. -/
theorem detect_total_in_priority_or_default (cfg : Config) (pn : String)
    (ph : Option Phase) (gl : Option (List String))
    (hdefined : ∀ cid ∈ cfg.detectionPriority, cid ≠ "personal" → (lookupClient cfg cid).isSome) :
    (detect_client_for_work cfg pn ph gl).isSome = true ∧
    ((detect_client_for_work cfg pn ph gl).getD cfg.defaultClient ∈ cfg.detectionPriority ∨
     (detect_client_for_work cfg pn ph gl).getD cfg.defaultClient = cfg.defaultClient) :=
  detectGo_total cfg pn ph gl cfg.detectionPriority hdefined

/-- Witness for C10: a phase with no matching field plus a gitlab list that
matches client "a". -/
theorem detect_total_in_priority_or_default_witness :
    (detect_client_for_work cfgAB "gamma" none (some ["ALPHA"])).isSome = true ∧
    ((detect_client_for_work cfgAB "gamma" none (some ["ALPHA"])).getD cfgAB.defaultClient ∈
        cfgAB.detectionPriority ∨
     (detect_client_for_work cfgAB "gamma" none (some ["ALPHA"])).getD cfgAB.defaultClient =
        cfgAB.defaultClient) :=
  detect_total_in_priority_or_default cfgAB "gamma" none (some ["ALPHA"]) (by decide)


/-- Summation distributes over list append of minute entries. -/
theorem sumVals_append (m1 m2 : List (String × Int)) :
    sumVals (m1 ++ m2) = sumVals m1 + sumVals m2 := by
  simp [sumVals]

/-- Incrementing an existing key adds exactly its increment to the total. -/
theorem sumVals_bumpFirst (m : List (String × Int)) (k : String) (d : Int)
    (h : hasKey m k = true) : sumVals (bumpFirst m k d) = sumVals m + d := by
  induction m with
  | nil => simp [hasKey] at h
  | cons e rest ih =>
    cases hek : (e.1 == k) with
    | true =>
        simp [bumpFirst, hek, sumVals]
        ring
    | false =>
        have h2 : hasKey rest k = true := by simpa [hasKey, hek] using h
        simp [bumpFirst, hek, sumVals] at ih ⊢
        rw [ih h2]
        ring

/-- Initialising a client adds a zero entry, leaving the total unchanged. -/
theorem initClient_minutes_sum (st : AggState) (cid : String) :
    sumVals (initClient st cid).minutes = sumVals st.minutes := by
  unfold initClient
  by_cases h : hasKey st.minutes cid = true <;> simp [h, sumVals_append, sumVals]

/-- After initialisation the client has an entry. -/
theorem initClient_hasKey (st : AggState) (cid : String) :
    hasKey (initClient st cid).minutes cid = true := by
  unfold initClient
  by_cases h : hasKey st.minutes cid = true
  · rw [if_pos h]; exact h
  · rw [if_neg h]
    simp [hasKey, List.any_append]

/-- What one loop iteration does to the minutes dict: ineligible phases leave
it untouched; an eligible phase classified to cid initialises cid if needed
and adds the raw durationMinutes. -/
theorem processPhase_minutes_eq (cfg : Config) (gl : Option (List String))
    (st : AggState) (p : Phase) (st1 : AggState)
    (h : processPhase cfg gl st p = some st1) :
    (eligible p = false ∧ st1.minutes = st.minutes) ∨
    (∃ cid, eligible p = true ∧
       detect_client_for_work cfg p.projectName (some p) gl = some cid ∧
       st1.minutes = bumpFirst (initClient st cid).minutes cid p.durationMinutes) := by
  unfold processPhase at h
  by_cases he : eligible p = true
  · rw [if_pos he] at h
    cases hd : detect_client_for_work cfg p.projectName (some p) gl with
    | none => rw [hd] at h; cases h
    | some cid =>
        rw [hd] at h
        refine Or.inr ⟨cid, he, rfl, ?_⟩
        cases h
        by_cases h1 : (p.projectName == "") = true <;>
          by_cases h2 : (p.ticketReference == "") = true <;>
            simp [h1, h2]
  · rw [if_neg he] at h
    cases h
    exact Or.inl ⟨Bool.eq_false_iff.mpr (fun hc => he (by simpa using hc)), rfl⟩

/-- One loop iteration grows the minutes total by exactly the phase's
durationMinutes when the phase is eligible, and by nothing otherwise. -/
theorem processPhase_sum (cfg : Config) (gl : Option (List String))
    (st : AggState) (p : Phase) (st1 : AggState)
    (h : processPhase cfg gl st p = some st1) :
    sumVals st1.minutes = sumVals st.minutes + (if eligible p then p.durationMinutes else 0) := by
  rcases processPhase_minutes_eq cfg gl st p st1 h with ⟨he, hm⟩ | ⟨cid, he, _, hm⟩
  · simp [he, hm]
  · rw [hm, sumVals_bumpFirst _ _ _ (initClient_hasKey st cid), initClient_minutes_sum]
    simp [he]

/-- Folding the phase loop adds exactly the eligible durations to the total. -/
theorem processPhases_sum (cfg : Config) (gl : Option (List String))
    (ps : List Phase) : ∀ (st st1 : AggState),
      processPhases cfg gl st ps = some st1 →
      sumVals st1.minutes = sumVals st.minutes + eligibleSum ps := by
  induction ps with
  | nil =>
      intro st st1 h
      cases h
      simp [eligibleSum]
  | cons p ps ih =>
      intro st st1 h
      unfold processPhases at h
      cases hp : processPhase cfg gl st p with
      | none => rw [hp] at h; cases h
      | some st2 =>
          rw [hp] at h
          rw [ih st2 st1 h, processPhase_sum cfg gl st p st2 hp]
          by_cases he : eligible p = true
          · simp [eligibleSum, List.filter_cons, he]
            ring
          · simp [eligibleSum, List.filter_cons, he]

/-- C2: the per-client minute totals conserve time — their sum equals the sum
of durationMinutes over exactly the classified (eligible) phases; ineligible
phases contribute nothing and no eligible minute is lost or duplicated. -/
theorem minutes_conservation (cfg : Config) (gl : Option (List String))
    (phases : List Phase) (res : DayResult)
    (h : update_timesheet_with_multi_client cfg gl phases = some res) :
    sumVals res.clientMinutes = eligibleSum phases := by
  unfold update_timesheet_with_multi_client at h
  cases hps : processPhases cfg gl emptyAgg phases with
  | none => rw [hps] at h; cases h
  | some st =>
      rw [hps] at h
      cases h
      simpa [emptyAgg, sumVals] using processPhases_sum cfg gl phases emptyAgg st hps

/-- Witness for C2 on a concrete two-phase day. -/
theorem minutes_conservation_witness :
    sumVals resAB.clientMinutes = eligibleSum [phaseAlpha 50, phaseBeta 50] :=
  minutes_conservation cfgAB none [phaseAlpha 50, phaseBeta 50] resAB (by decide)


/-- Key list of a cons cell. -/
theorem keysOf_cons (e : String × Int) (m : List (String × Int)) :
    keysOf (e :: m) = e.1 :: keysOf m := rfl

/-- Key list of an append. -/
theorem keysOf_append (m1 m2 : List (String × Int)) :
    keysOf (m1 ++ m2) = keysOf m1 ++ keysOf m2 := by
  simp [keysOf]

/-- Incrementing an entry in place never changes the key list. -/
theorem keysOf_bumpFirst (m : List (String × Int)) (k : String) (d : Int) :
    keysOf (bumpFirst m k d) = keysOf m := by
  induction m with
  | nil => rfl
  | cons e rest ih =>
      cases he : (e.1 == k) with
      | true => simp [bumpFirst, he, keysOf]
      | false =>
          simp [bumpFirst, he, keysOf] at ih ⊢
          exact ih

/-- Membership in the key list is the dict membership test of the code. -/
theorem mem_keysOf_iff_hasKey (m : List (String × Int)) (k : String) :
    k ∈ keysOf m ↔ hasKey m k = true := by
  simp only [keysOf, hasKey, List.any_eq_true, List.mem_map, beq_iff_eq]

/-- One loop iteration preserves uniqueness of the client keys. -/
theorem processPhase_keys_nodup (cfg : Config) (gl : Option (List String))
    (st : AggState) (p : Phase) (st1 : AggState)
    (h : processPhase cfg gl st p = some st1)
    (hnd : (keysOf st.minutes).Nodup) : (keysOf st1.minutes).Nodup := by
  rcases processPhase_minutes_eq cfg gl st p st1 h with ⟨_, hm⟩ | ⟨cid, _, _, hm⟩
  · rwa [hm]
  · rw [hm, keysOf_bumpFirst]
    unfold initClient
    by_cases hk : hasKey st.minutes cid = true
    · rwa [if_pos hk]
    · rw [if_neg hk]
      have hnin : cid ∉ keysOf st.minutes := fun hc => hk ((mem_keysOf_iff_hasKey _ _).mp hc)
      show (keysOf (st.minutes ++ [(cid, 0)])).Nodup
      rw [keysOf_append]
      refine List.Nodup.append hnd (by simp [keysOf]) ?_
      intro a ha hb
      simp [keysOf] at hb
      exact hnin (hb ▸ ha)

/-- The whole phase loop preserves uniqueness of the client keys. -/
theorem processPhases_keys_nodup (cfg : Config) (gl : Option (List String))
    (ps : List Phase) : ∀ st st1 : AggState,
      processPhases cfg gl st ps = some st1 →
      (keysOf st.minutes).Nodup → (keysOf st1.minutes).Nodup := by
  induction ps with
  | nil =>
      intro st st1 h hnd
      cases h
      exact hnd
  | cons p ps ih =>
      intro st st1 h hnd
      unfold processPhases at h
      cases hp : processPhase cfg gl st p with
      | none => rw [hp] at h; cases h
      | some st2 =>
          rw [hp] at h
          exact ih st2 st1 h (processPhase_keys_nodup cfg gl st p st2 hp hnd)

/-- The hours loop appends one rounded entry per non-"personal" client,
in dict order. -/
theorem foldl_hoursStep_clientHours (m : List (String × Int)) (acc : HoursAcc) :
    (m.foldl hoursStep acc).clientHours =
      acc.clientHours ++ (m.filter (fun e => !(e.1 == "personal"))).map
        (fun e => (e.1, round1Tenths e.2)) := by
  induction m generalizing acc with
  | nil => simp
  | cons e m ih =>
      cases hp : (e.1 == "personal") with
      | true => simp [hoursStep, hp, ih, List.filter_cons]
      | false => simp [hoursStep, hp, ih, List.filter_cons]

/-- The hours loop sums the per-client rounded hours of the non-"personal"
clients into total_billable. -/
theorem foldl_hoursStep_billable (m : List (String × Int)) (acc : HoursAcc) :
    (m.foldl hoursStep acc).totalBillable =
      acc.totalBillable +
        ((m.filter (fun e => !(e.1 == "personal"))).map (fun e => round1Tenths e.2)).sum := by
  induction m generalizing acc with
  | nil => simp
  | cons e m ih =>
      cases hp : (e.1 == "personal") with
      | true => simp [hoursStep, hp, ih, List.filter_cons]
      | false =>
          simp [hoursStep, hp, ih, List.filter_cons]
          ring

/-- Entries of other clients never touch side_project_hours. -/
theorem foldl_hoursStep_side_stable (m : List (String × Int)) (acc : HoursAcc)
    (h : ("personal" : String) ∉ keysOf m) :
    (m.foldl hoursStep acc).sideProjectHours = acc.sideProjectHours := by
  induction m generalizing acc with
  | nil => rfl
  | cons e m ih =>
      rw [keysOf_cons, List.mem_cons, not_or] at h
      have hp : (e.1 == "personal") = false := beq_eq_false_iff_ne.mpr (Ne.symm h.1)
      simp [hoursStep, hp, ih _ h.2]

/-- With unique keys, side_project_hours ends as the rounded hours of the
unique "personal" entry, or its initial value when there is none. -/
theorem foldl_hoursStep_side (m : List (String × Int)) (acc : HoursAcc)
    (hnd : (keysOf m).Nodup) :
    (m.foldl hoursStep acc).sideProjectHours =
      ((m.find? (fun e => e.1 == "personal")).map (fun e => round1Tenths e.2)).getD
        acc.sideProjectHours := by
  induction m generalizing acc with
  | nil => rfl
  | cons e m ih =>
      rw [keysOf_cons, List.nodup_cons] at hnd
      cases hp : (e.1 == "personal") with
      | true =>
          have hpe : e.1 = "personal" := eq_of_beq hp
          have hmem : ("personal" : String) ∉ keysOf m := hpe ▸ hnd.1
          simp [List.find?_cons, hp, hoursStep, foldl_hoursStep_side_stable m _ hmem]
      | false =>
          simp [List.find?_cons, hp, hoursStep, ih _ hnd.2]

/-- C3 (amended): billableHours is the sum over non-default clients of each
client's totalMinutes/60 rounded to one decimal separately (not one rounding
of the sum), and sideProjectHours is the "personal" entry's minutes/60
rounded the same way (zero without such an entry); the rounding is round
half-to-even, Python's round. -/
theorem billable_per_client_rounding (cfg : Config) (gl : Option (List String))
    (phases : List Phase) (res : DayResult)
    (h : update_timesheet_with_multi_client cfg gl phases = some res) :
    res.billableTenths =
      ((res.clientMinutes.filter (fun e => !(e.1 == "personal"))).map
          (fun e => round1Tenths e.2)).sum ∧
    res.sideProjectTenths =
      ((res.clientMinutes.find? (fun e => e.1 == "personal")).map
          (fun e => round1Tenths e.2)).getD 0 := by
  unfold update_timesheet_with_multi_client at h
  cases hps : processPhases cfg gl emptyAgg phases with
  | none => rw [hps] at h; cases h
  | some st =>
      rw [hps] at h
      cases h
      have hnd : (keysOf st.minutes).Nodup :=
        processPhases_keys_nodup cfg gl phases emptyAgg st hps (by simp [emptyAgg, keysOf])
      constructor
      · simpa [hoursPass] using foldl_hoursStep_billable st.minutes ⟨[], 0, 0⟩
      · simpa [hoursPass] using foldl_hoursStep_side st.minutes ⟨[], 0, 0⟩ hnd

/-- Witness for the amended C3 on the two-client day. -/
theorem billable_per_client_rounding_witness :
    resAB.billableTenths =
      ((resAB.clientMinutes.filter (fun e => !(e.1 == "personal"))).map
          (fun e => round1Tenths e.2)).sum ∧
    resAB.sideProjectTenths =
      ((resAB.clientMinutes.find? (fun e => e.1 == "personal")).map
          (fun e => round1Tenths e.2)).getD 0 :=
  billable_per_client_rounding cfgAB none [phaseAlpha 50, phaseBeta 50] resAB (by decide)


/-- Incrementing an entry in place never changes membership. -/
theorem hasKey_bumpFirst (m : List (String × Int)) (k : String) (d : Int) (x : String) :
    hasKey (bumpFirst m k d) x = hasKey m x := by
  induction m with
  | nil => rfl
  | cons e rest ih =>
      cases he : (e.1 == k) with
      | true => simp [bumpFirst, he, hasKey]
      | false =>
          simp [bumpFirst, he, hasKey] at ih ⊢
          rw [ih]

/-- Membership after initialisation: the old keys plus the new client. -/
theorem hasKey_initClient (st : AggState) (cid x : String) :
    hasKey (initClient st cid).minutes x = (hasKey st.minutes x || (cid == x)) := by
  unfold initClient
  by_cases hk : hasKey st.minutes cid = true
  · rw [if_pos hk]
    cases hx : (cid == x) with
    | false => simp
    | true =>
        have hcx : cid = x := eq_of_beq hx
        subst hcx
        simp [hk]
  · rw [if_neg hk]
    show hasKey (st.minutes ++ [(cid, 0)]) x = _
    simp [hasKey, List.any_append]

/-- One loop iteration creates an entry for exactly the classified client of
an eligible phase. -/
theorem processPhase_hasKey_iff (cfg : Config) (gl : Option (List String))
    (st : AggState) (p : Phase) (st1 : AggState) (k : String)
    (h : processPhase cfg gl st p = some st1) :
    hasKey st1.minutes k = true ↔
      (hasKey st.minutes k = true ∨
       (eligible p = true ∧
        detect_client_for_work cfg p.projectName (some p) gl = some k)) := by
  rcases processPhase_minutes_eq cfg gl st p st1 h with ⟨he, hm⟩ | ⟨cid, he, hd, hm⟩
  · rw [hm]
    constructor
    · exact Or.inl
    · rintro (hk | ⟨he2, _⟩)
      · exact hk
      · rw [he] at he2; cases he2
  · rw [hm, hasKey_bumpFirst, hasKey_initClient]
    constructor
    · intro hor
      rcases Bool.or_eq_true_iff.mp hor with hk | hck
      · exact Or.inl hk
      · exact Or.inr ⟨he, by rw [hd, eq_of_beq hck]⟩
    · rintro (hk | ⟨_, hdk⟩)
      · simp [hk]
      · rw [hd] at hdk
        injection hdk with hcid
        simp [hcid]

/-- A client has an entry after the phase loop exactly when it had one before
or some eligible phase of the list is classified to it. -/
theorem processPhases_hasKey_iff (cfg : Config) (gl : Option (List String))
    (ps : List Phase) : ∀ (st st1 : AggState) (k : String),
      processPhases cfg gl st ps = some st1 →
      (hasKey st1.minutes k = true ↔
        hasKey st.minutes k = true ∨
        ∃ p ∈ ps, eligible p = true ∧
          detect_client_for_work cfg p.projectName (some p) gl = some k) := by
  induction ps with
  | nil =>
      intro st st1 k h
      cases h
      simp
  | cons p ps ih =>
      intro st st1 k h
      unfold processPhases at h
      cases hp : processPhase cfg gl st p with
      | none => rw [hp] at h; cases h
      | some st2 =>
          rw [hp] at h
          rw [ih st2 st1 k h, processPhase_hasKey_iff cfg gl st p st2 k hp]
          constructor
          · rintro ((hk | hp1) | ⟨q, hq, hqe⟩)
            · exact Or.inl hk
            · exact Or.inr ⟨p, List.mem_cons_self _ _, hp1⟩
            · exact Or.inr ⟨q, List.mem_cons_of_mem _ hq, hqe⟩
          · rintro (hk | ⟨q, hq, hqe⟩)
            · exact Or.inl (Or.inl hk)
            · rcases List.mem_cons.mp hq with rfl | hq2
              · exact Or.inl (Or.inr hqe)
              · exact Or.inr ⟨q, hq2, hqe⟩

/-- C5 (amended): the day's clientId is keyed on which non-"personal" clients
possess an entry in client_minutes — equivalently, received at least one
classified eligible phase — regardless of whether their totals are nonzero:
"personal" when no such client exists, the sole such client's id when exactly
one does, "multiple" otherwise. -/
theorem primary_client_entry_count (cfg : Config) (gl : Option (List String))
    (phases : List Phase) (res : DayResult) (cid : String)
    (h : update_timesheet_with_multi_client cfg gl phases = some res) :
    (res.primaryClientId =
      match res.clientMinutes.filter (fun e => !(e.1 == "personal")) with
      | [] => "personal"
      | [e] => e.1
      | _ => "multiple") ∧
    (hasKey res.clientMinutes cid = true ↔
      ∃ p ∈ phases, eligible p = true ∧
        detect_client_for_work cfg p.projectName (some p) gl = some cid) := by
  unfold update_timesheet_with_multi_client at h
  cases hps : processPhases cfg gl emptyAgg phases with
  | none => rw [hps] at h; cases h
  | some st =>
      rw [hps] at h
      cases h
      constructor
      · show primaryClient (hoursPass st.minutes).clientHours = _
        have hch : (hoursPass st.minutes).clientHours =
            (st.minutes.filter (fun e => !(e.1 == "personal"))).map
              (fun e => (e.1, round1Tenths e.2)) := by
          simpa [hoursPass] using foldl_hoursStep_clientHours st.minutes ⟨[], 0, 0⟩
        rw [hch]
        cases hf : st.minutes.filter (fun e => !(e.1 == "personal")) with
        | nil => rfl
        | cons a t =>
            cases t with
            | nil => rfl
            | cons b t2 => rfl
      · have hiff := processPhases_hasKey_iff cfg gl phases emptyAgg st cid hps
        have h0 : hasKey emptyAgg.minutes cid = false := rfl
        rw [h0] at hiff
        simpa using hiff

/-- Witness for the amended C5 at the zero-duration day. -/
theorem primary_client_entry_count_witness :
    (resZero.primaryClientId =
      match resZero.clientMinutes.filter (fun e => !(e.1 == "personal")) with
      | [] => "personal"
      | [e] => e.1
      | _ => "multiple") ∧
    (hasKey resZero.clientMinutes "a" = true ↔
      ∃ p ∈ [phaseAlpha 0], eligible p = true ∧
        detect_client_for_work cfgAB p.projectName (some p) none = some "a") :=
  primary_client_entry_count cfgAB none [phaseAlpha 0] resZero "a" (by decide)

/-- C4 (amended): the category rewrite of a classified phase compares the
assigned client id against the literal string "personal", not against the
configured default client id: side_project exactly when the assigned id is
"personal", client_work otherwise. -/
theorem category_rewrite_literal_personal (cfg : Config) (gl : Option (List String))
    (st : AggState) (p : Phase) (st1 : AggState) (cid : String)
    (helig : eligible p = true)
    (hdet : detect_client_for_work cfg p.projectName (some p) gl = some cid)
    (h : processPhase cfg gl st p = some st1) :
    st1.phases = st.phases ++
      [{ p with clientId := some cid,
                category := if cid == "personal" then "side_project" else "client_work" }] := by
  unfold processPhase at h
  simp only [helig, if_true] at h
  rw [hdet] at h
  cases h
  by_cases hk : hasKey st.minutes cid = true <;>
    by_cases h1 : (p.projectName == "") = true <;>
      by_cases h2 : (p.ticketReference == "") = true <;>
        simp [initClient, hk, h1, h2, rewriteCategory]

/-- Witness for the amended C4 at the concrete alpha phase. -/
theorem category_rewrite_literal_personal_witness :
    stAlpha.phases = emptyAgg.phases ++
      [{ phaseAlpha 50 with
          clientId := some "a",
          category := if "a" == "personal" then "side_project" else "client_work" }] :=
  category_rewrite_literal_personal cfgAB none emptyAgg (phaseAlpha 50) stAlpha "a"
    (by decide) (by decide) (by decide)


/-- Looking up the bumped key returns the old entry with the increment
applied (and nothing when the key is absent). -/
theorem find?_bumpFirst (m : List (String × Int)) (k : String) (d : Int) :
    (bumpFirst m k d).find? (fun e => e.1 == k) =
      (m.find? (fun e => e.1 == k)).map (fun e => (e.1, e.2 + d)) := by
  induction m with
  | nil => rfl
  | cons e rest ih =>
      cases he : (e.1 == k) with
      | true => simp [bumpFirst, he, List.find?_cons]
      | false => simp [bumpFirst, he, List.find?_cons, ih]

/-- A key that fails the dict membership test is not found. -/
theorem find?_eq_none_of_hasKey_false (m : List (String × Int)) (k : String)
    (h : hasKey m k = false) : m.find? (fun e => e.1 == k) = none := by
  induction m with
  | nil => rfl
  | cons e rest ih =>
      simp [hasKey, List.any_cons] at h
      simp [List.find?_cons, h.1, ih (by simpa [hasKey] using h.2)]

/-- Initialising a client does not change the value read back for it:
an existing entry is untouched, a fresh entry holds zero. -/
theorem lookupMinutes_initClient (st : AggState) (cid : String) :
    lookupMinutes (initClient st cid).minutes cid = lookupMinutes st.minutes cid := by
  unfold initClient
  by_cases hk : hasKey st.minutes cid = true
  · rw [if_pos hk]
  · rw [if_neg hk]
    have hn : st.minutes.find? (fun e => e.1 == cid) = none :=
      find?_eq_none_of_hasKey_false st.minutes cid (Bool.eq_false_iff.mpr hk)
    show lookupMinutes (st.minutes ++ [(cid, 0)]) cid = _
    unfold lookupMinutes
    rw [List.find?_append, hn]
    simp

/-- Bumping a present key adds exactly the increment to its value. -/
theorem lookupMinutes_bumpFirst (m : List (String × Int)) (k : String) (d : Int)
    (h : hasKey m k = true) :
    lookupMinutes (bumpFirst m k d) k = lookupMinutes m k + d := by
  unfold lookupMinutes
  rw [find?_bumpFirst]
  cases hf : m.find? (fun e => e.1 == k) with
  | none =>
      exfalso
      have h2 : ∃ e ∈ m, (e.1 == k) = true := by
        simpa [hasKey, List.any_eq_true] using h
      obtain ⟨e, he, hpe⟩ := h2
      have h3 : ∀ e ∈ m, ¬ ((e.1 == k) = true) := by
        simpa [List.find?_eq_none] using hf
      exact h3 e he hpe
  | some e => simp

/-- C8 (amended): an eligible phase classified to cid adds its raw
durationMinutes to that client's total — zero and negative durations are
accumulated as-is, with no clipping to zero and no warning path. -/
theorem duration_accumulates_raw (cfg : Config) (gl : Option (List String))
    (st : AggState) (p : Phase) (st1 : AggState) (cid : String)
    (helig : eligible p = true)
    (hdet : detect_client_for_work cfg p.projectName (some p) gl = some cid)
    (h : processPhase cfg gl st p = some st1) :
    lookupMinutes st1.minutes cid = lookupMinutes st.minutes cid + p.durationMinutes := by
  rcases processPhase_minutes_eq cfg gl st p st1 h with ⟨he, _⟩ | ⟨cid2, _, hd2, hm⟩
  · rw [helig] at he; cases he
  · rw [hdet] at hd2
    injection hd2 with hc
    subst hc
    rw [hm, lookupMinutes_bumpFirst _ _ _ (initClient_hasKey st cid),
      lookupMinutes_initClient]

/-- Witness for the amended C8 at the -30 minute phase. -/
theorem duration_accumulates_raw_witness :
    lookupMinutes stAlphaNeg.minutes "a" =
      lookupMinutes emptyAgg.minutes "a" + (phaseAlpha (-30)).durationMinutes :=
  duration_accumulates_raw cfgAB none emptyAgg (phaseAlpha (-30)) stAlphaNeg "a"
    (by decide) (by decide) (by decide)

/-- Rewriting category and clientId leaves every field the detection code
reads untouched, so the per-rule test is unchanged. -/
theorem ruleMatches_phase_fields (det : Detection) (pn : String)
    (gl : Option (List String)) (p : Phase) (c : String) (o : Option String) :
    ruleMatches det pn (some { p with category := c, clientId := o }) gl =
      ruleMatches det pn (some p) gl := rfl

/-- The detection loop is likewise unchanged by category/clientId rewrites. -/
theorem detectGo_phase_fields (cfg : Config) (pn : String)
    (gl : Option (List String)) (p : Phase) (c : String) (o : Option String)
    (l : List String) :
    detectGo cfg pn (some { p with category := c, clientId := o }) gl l =
      detectGo cfg pn (some p) gl l := by
  induction l with
  | nil => rfl
  | cons cid rest ih =>
      cases hcp : (cid == "personal") with
      | true => simp [detectGo, hcp, ih]
      | false =>
          cases hl : lookupClient cfg cid with
          | none => simp [detectGo, hcp, hl]
          | some client => simp [detectGo, hcp, hl, ruleMatches_phase_fields, ih]

/-- C9: the per-phase classification plus category rewrite is idempotent —
applied to its own output (same store, same gitlab signal) it returns that
output unchanged, same assignedClientId and same category. -/
theorem classify_rewrite_idempotent (cfg : Config) (gl : Option (List String))
    (p q : Phase) (h : classifyRewrite cfg gl p = some q) :
    classifyRewrite cfg gl q = some q := by
  unfold classifyRewrite at h
  by_cases he : eligible p = true
  · simp only [he, if_true] at h
    cases hd : detect_client_for_work cfg p.projectName (some p) gl with
    | none => rw [hd] at h; cases h
    | some cid =>
        rw [hd] at h
        cases h
        cases hcid : (cid == "personal") with
        | true =>
            have hq : eligible { p with clientId := some cid, category := rewriteCategory cid } = false := by
              simp [eligible, rewriteCategory, hcid]
            simp [classifyRewrite, hq]
        | false =>
            have hq : eligible { p with clientId := some cid, category := rewriteCategory cid } = true := by
              simp [eligible, rewriteCategory, hcid]
            have hdet2 : detect_client_for_work cfg
                ({ p with clientId := some cid, category := rewriteCategory cid }).projectName
                (some { p with clientId := some cid, category := rewriteCategory cid }) gl =
                some cid := by
              show detectGo cfg p.projectName
                (some { p with category := rewriteCategory cid, clientId := some cid }) gl
                cfg.detectionPriority = some cid
              rw [detectGo_phase_fields]
              exact hd
            simp [classifyRewrite, hq, hdet2]
  · rw [if_neg he] at h
    cases h
    simp [classifyRewrite, he]

/-- Witness for C9: re-running classification on the already-classified
alpha phase returns it unchanged. -/
theorem classify_rewrite_idempotent_witness :
    classifyRewrite cfgAB none qAlpha = some qAlpha :=
  classify_rewrite_idempotent cfgAB none (phaseAlpha 50) qAlpha (by decide)


end MultiClient
